import Mathlib

/-!
# Verification of the SPARQL-Query-Viz graph-dashboard core

A shallow embedding of the session-state operations of the dashboard
(`jaal/jaal.py` together with the constants and helpers of
`jaal/layout.py`), and proofs about them.

Graph records are embedded as Lean structures, the Python callbacks as
Lean functions over an explicit session state.  Python exceptions
(`KeyError`, `ZeroDivisionError`, and the query-engine errors) are
embedded with `Except`.  The external SPARQL engine is out of scope of
the repository; callbacks that consume its answer take that answer as an
explicit argument.  Numeric values are embedded as rationals.
-/

namespace SparqlQueryViz

/-! ## Python string primitives -/

/-- Python `str.lower()`, character by character. -/
def lower (s : String) : String := String.mk (s.data.map Char.toLower)

/-- Boolean prefix test on char lists. -/
def isPrefixB : List Char → List Char → Bool
  | [], _ => true
  | _ :: _, [] => false
  | a :: s, b :: t => a == b && isPrefixB s t

/-- Substring occurrence test on char lists. -/
def containsSub (pat : List Char) : List Char → Bool
  | [] => isPrefixB pat []
  | c :: t => isPrefixB pat (c :: t) || containsSub pat t

/-- Python `pat in s` for strings (substring containment). -/
def strIn (pat s : String) : Bool := containsSub pat.data s.data

/-- Split at the first occurrence of `sep`: on success returns the
characters strictly before the occurrence and those strictly after it. -/
def partitionAux (sep : List Char) : List Char → Option (List Char × List Char)
  | [] => if isPrefixB sep [] then some ([], []) else none
  | c :: t =>
    if isPrefixB sep (c :: t) then some ([], (c :: t).drop sep.length)
    else
      match partitionAux sep t with
      | some p => some (c :: p.1, p.2)
      | none => none

/-- Python `s.partition(sep)`: split `s` at the first occurrence of
`sep` into (before, sep, after); when `sep` does not occur, return
`(s, "", "")`. -/
def str_partition (s sep : String) : String × String × String :=
  match partitionAux sep.data s.data with
  | some p => (String.mk p.1, sep, String.mk p.2)
  | none => (s, "", "")

/-- Concatenation of a list of strings. -/
def join_str : List String → String
  | [] => ""
  | s :: t => s ++ join_str t

/-! ## Constants and helpers of `layout.py` -/

/-- `layout.py` line 22. -/
def DEFAULT_NODE_SIZE : ℚ := 7

/-- `layout.py` line 23. -/
def DEFAULT_EDGE_SIZE : ℚ := 1

/-- `layout.py` line 26. -/
def DEFAULT_COLOR : String := "#97C2FC"

/-- `layout.py` lines 29-52: the fixed palette of 20 hues. -/
def KELLY_COLORS_HEX : List String :=
  ["#FFB300", "#A6BDD7", "#803E75", "#FF6800", "#C10020", "#CEA262", "#817066",
   "#007D34", "#F6768E", "#00538A", "#FF7A5C", "#53377A", "#FF8E00", "#B32851",
   "#F4C800", "#7F180D", "#93AA00", "#593315", "#F13A13", "#232C16"]

/-- `layout.py` `get_distinct_colors`: `KELLY_COLORS_HEX[:n]` for nodes,
`KELLY_COLORS_HEX[2:(n+2)]` for edges. -/
def get_distinct_colors (n : Nat) (for_nodes : Bool := true) : List String :=
  if for_nodes then KELLY_COLORS_HEX.take n
  else (KELLY_COLORS_HEX.drop 2).take n

/-! ## Data model (visdcc record set and session state) -/

/-- A node record of the visdcc data set.  Arbitrary ontology-derived
categorical attributes live in `attrs`, numeric ones in `numAttrs`. -/
structure NodeRecord where
  id : String
  label : String
  color : String
  size : ℚ
  hidden : Bool
  attrs : List (String × String)
  numAttrs : List (String × ℚ)
deriving DecidableEq

/-- An edge record of the visdcc data set; `color` embeds the inner
value of the Python `edge['color']['color']` dictionary. -/
structure EdgeRecord where
  id : String
  «from» : String
  «to» : String
  label : String
  color : String
  width : ℚ
  attrs : List (String × String)
  numAttrs : List (String × ℚ)
deriving DecidableEq

/-- The visdcc record set `{nodes, edges}`. -/
structure GraphData where
  nodes : List NodeRecord
  edges : List EdgeRecord
deriving DecidableEq

/-- Per-attribute scaling bounds, `scaling_vars[...][attr]`. -/
structure ScalingBounds where
  min : ℚ
  max : ℚ
deriving DecidableEq

/-- The two sections of `scaling_vars` (node and edge attributes). -/
structure ScalingVars where
  node : List (String × ScalingBounds)
  edge : List (String × ScalingBounds)
deriving DecidableEq

/-- The mutable session state of a `Jaal` instance (the fields of
`Jaal.__init__` that the modelled callbacks read or write). -/
structure JaalState where
  data : GraphData
  filtered_data : GraphData
  scaling_vars : ScalingVars
  sparql_query : String
  sparql_query_history : String
  counter_query_history : Nat
deriving DecidableEq

/-- Python runtime errors raised by the modelled callbacks. -/
inductive PyError where
  | KeyError
  | ZeroDivisionError
deriving DecidableEq

/-- Errors of the external SPARQL engine (`owlready2.rply`):
`ParsingError` is raised for an empty query, `LexingError` for a
syntactically invalid one. -/
inductive QueryError where
  | ParsingError
  | LexingError
deriving DecidableEq

/-- One bound term of a query answer row: either a named ontology
entity (which has a `.name`) or a primitive value (whose `.name` access
raises `AttributeError`); in both cases the payload is the rendered
text. -/
inductive SPARQLTerm where
  | entity (name : String)
  | prim (text : String)
deriving DecidableEq

deriving instance DecidableEq for Except

/-- Python `d[k]` on an association list: `KeyError` when absent. -/
def dict_get {β : Type} (l : List (String × β)) (k : String) : Except PyError β :=
  match l.lookup k with
  | some v => .ok v
  | none => .error .KeyError

/-- Run an effectful map over a list, stopping at the first error;
models a Python `for` loop that updates each record in turn. -/
def pyMapE {α β : Type} (f : α → Except PyError β) : List α → Except PyError (List β)
  | [] => .ok []
  | x :: xs => do
    let y ← f x
    let ys ← pyMapE f xs
    return y :: ys

/-! ## `_callback_search_graph` (jaal.py lines 24-43) -/

/-- First loop of `_callback_search_graph`: hide a node unless its
lowered label contains the search text. -/
def search_node (search_text : String) (node : NodeRecord) : NodeRecord :=
  if !(strIn search_text (lower node.label)) then { node with hidden := true }
  else { node with hidden := false }

/-- Body of the inner loop of the edge pass: un-hide a node whose
lowered label equals the lowered `from` (or, failing that, `to`)
endpoint id of the edge. -/
def unhide_for_edge (edge : EdgeRecord) (node : NodeRecord) : NodeRecord :=
  if lower edge.«from» == lower node.label then { node with hidden := false }
  else if lower edge.«to» == lower node.label then { node with hidden := false }
  else node

/-- `_callback_search_graph`: mark non-matching nodes hidden, then for
every edge whose label contains the search text un-hide the nodes whose
label matches its endpoints. -/
def _callback_search_graph (graph_data : GraphData) (search_text : String) : GraphData :=
  let nodes := graph_data.nodes.map (search_node search_text)
  let nodes := graph_data.edges.foldl
    (fun nodes edge =>
      if strIn search_text (lower edge.label) then nodes.map (unhide_for_edge edge)
      else nodes)
    nodes
  { graph_data with nodes := nodes }

/-! ## `_callback_filter_nodes` (jaal.py lines 115-153) -/

/-- Whether the term is a primitive value (no `.name` attribute). -/
def term_is_prim : SPARQLTerm → Bool
  | .entity _ => false
  | .prim _ => true

/-- The text contributed by one term to the result panel. -/
def term_text : SPARQLTerm → String
  | .entity n => n
  | .prim t => t

/-- The result panel text accumulated over the flattened answer. -/
def result_text (flat_res_list : List SPARQLTerm) : String :=
  flat_res_list.foldl (fun acc t => acc ++ term_text t ++ "\n") ""

/-- One history entry `"<i+1>: <query>\n"` as appended by
`_callback_filter_nodes` when the counter was `i` before evaluation. -/
def entry_line (i : Nat) (q : String) : String :=
  toString (i + 1) ++ ": " ++ q ++ "\n"

/-- The nested node-selection loop of `_callback_filter_nodes`: collect
each node once per answer term whose entity name equals the node id. -/
def query_res_nodes (nodes : List NodeRecord) (flat_res_list : List SPARQLTerm) :
    List NodeRecord :=
  nodes.foldl (fun res node =>
    flat_res_list.foldl (fun res t =>
      match t with
      | .entity n => if node.id == n then res ++ [node] else res
      | .prim _ => res) res) []

/-- `_callback_filter_nodes`: reset the filtered view to a copy of the
full set, submit the query (the engine's answer is the explicit
`sparql_res` argument), and dispatch on the outcome.  Returns the new
state, the graph to display, and the result-panel text. -/
def _callback_filter_nodes (st : JaalState) (graph_data : GraphData)
    (sparql_res : Except QueryError (List (List SPARQLTerm))) :
    JaalState × GraphData × String :=
  let st := { st with filtered_data := st.data }
  match sparql_res with
  | .ok res_list =>
    let flat_res_list := res_list.flatten
    let result := result_text flat_res_list
    let res_is_no_data_object := flat_res_list.any term_is_prim
    let (st, graph_data) :=
      if res_is_no_data_object then (st, st.data)
      else
        let fd := { st.filtered_data with
                    nodes := query_res_nodes st.filtered_data.nodes flat_res_list }
        ({ st with filtered_data := fd }, fd)
    let st := { st with
      counter_query_history := st.counter_query_history + 1,
      sparql_query_history :=
        st.sparql_query_history ++ entry_line st.counter_query_history st.sparql_query }
    (st, graph_data, result)
  | .error .ParsingError => (st, st.data, "No SPARQL query entered")
  | .error .LexingError => (st, st.data, "Not a valid SPARQL query.")

/-! ## `_callback_sparql_query_history` (jaal.py lines 155-163) and the
clear branch of `setting_pane_callback` (jaal.py lines 574-576) -/

/-- `_callback_sparql_query_history`: show the whole history when the
counter is within the window, otherwise the suffix starting at the
first occurrence of `"<counter-(N-1)>: "`. -/
def _callback_sparql_query_history (st : JaalState) (number_of_shown_queries : Nat) : String :=
  let sparql_query_history := st.sparql_query_history
  if st.counter_query_history > number_of_shown_queries then
    let separator :=
      toString ((st.counter_query_history : Int) - ((number_of_shown_queries : Int) - 1)) ++ ": "
    let p := str_partition sparql_query_history separator
    p.2.1 ++ p.2.2
  else
    sparql_query_history

/-- The `clear-query-history-button` branch of `setting_pane_callback`:
counter to zero and history to the empty string, together. -/
def clear_query_history (st : JaalState) : JaalState :=
  { st with counter_query_history := 0, sparql_query_history := "" }

/-! ## Styling callbacks (jaal.py lines 165-245) -/

/-- The categorical attribute column of the node set (pandas
`pd.DataFrame(nodes)[attr]`), in node order. -/
def node_attr_values (nodes : List NodeRecord) (attr : String) : List String :=
  nodes.filterMap (fun n => n.attrs.lookup attr)

/-- The categorical attribute column of the edge set, in edge order. -/
def edge_attr_values (edges : List EdgeRecord) (attr : String) : List String :=
  edges.filterMap (fun e => e.attrs.lookup attr)

/-- Distinct values in order of first appearance (pandas
`Series.unique()`). -/
def uniqueFirst (l : List String) : List String :=
  l.foldl (fun acc v => if acc.contains v then acc else acc ++ [v]) []

/-- The re-filter step ending every styling callback: keep, from the
(restyled) full node set, those whose id was in the filtered view. -/
def refilter_nodes (st : JaalState) : JaalState × GraphData :=
  let filtered_nodes := st.filtered_data.nodes.map (fun x => x.id)
  let fd := { st.filtered_data with
              nodes := st.data.nodes.filter (fun x => filtered_nodes.contains x.id) }
  ({ st with filtered_data := fd }, fd)

/-- The edge version of the re-filter step. -/
def refilter_edges (st : JaalState) : JaalState × GraphData :=
  let filtered_edges := st.filtered_data.edges.map (fun x => x.id)
  let fd := { st.filtered_data with
              edges := st.data.edges.filter (fun x => filtered_edges.contains x.id) }
  ({ st with filtered_data := fd }, fd)

/-- Recolor one node from the value-to-color mapping
(`node['color'] = value_color_mapping[node[attr]]`). -/
def color_node (mapping : List (String × String)) (attr : String) (n : NodeRecord) :
    Except PyError NodeRecord := do
  let v ← dict_get n.attrs attr
  let c ← dict_get mapping v
  return { n with color := c }

/-- `_callback_color_nodes`: on `"None"` reset every node to the
default color; otherwise build the value-to-color mapping from the
distinct values of the attribute over the full set and recolor every
node from it.  Ends with the re-filter step. -/
def _callback_color_nodes (st : JaalState) (color_nodes_value : String) :
    Except PyError (JaalState × GraphData × List (String × String)) := do
  if color_nodes_value == "None" then
    let nodes := st.data.nodes.map (fun n => { n with color := DEFAULT_COLOR })
    let st := { st with data := { st.data with nodes := nodes } }
    let (st, graph_data) := refilter_nodes st
    return (st, graph_data, [])
  else
    let unique_values := uniqueFirst (node_attr_values st.data.nodes color_nodes_value)
    let colors := get_distinct_colors unique_values.length
    let value_color_mapping := unique_values.zip colors
    let nodes ← pyMapE (color_node value_color_mapping color_nodes_value) st.data.nodes
    let st := { st with data := { st.data with nodes := nodes } }
    let (st, graph_data) := refilter_nodes st
    return (st, graph_data, value_color_mapping)

/-- Recolor one edge from the value-to-color mapping. -/
def color_edge (mapping : List (String × String)) (attr : String) (e : EdgeRecord) :
    Except PyError EdgeRecord := do
  let v ← dict_get e.attrs attr
  let c ← dict_get mapping v
  return { e with color := c }

/-- `_callback_color_edges`, the edge analogue of
`_callback_color_nodes` (it also uses the node palette slice). -/
def _callback_color_edges (st : JaalState) (color_edges_value : String) :
    Except PyError (JaalState × GraphData × List (String × String)) := do
  if color_edges_value == "None" then
    let edges := st.data.edges.map (fun e => { e with color := DEFAULT_COLOR })
    let st := { st with data := { st.data with edges := edges } }
    let (st, graph_data) := refilter_edges st
    return (st, graph_data, [])
  else
    let unique_values := uniqueFirst (edge_attr_values st.data.edges color_edges_value)
    let colors := get_distinct_colors unique_values.length
    let value_color_mapping := unique_values.zip colors
    let edges ← pyMapE (color_edge value_color_mapping color_edges_value) st.data.edges
    let st := { st with data := { st.data with edges := edges } }
    let (st, graph_data) := refilter_edges st
    return (st, graph_data, value_color_mapping)

/-- The scaling function of `_callback_size_nodes`,
`lambda x: 20*(x-minn)/(maxx-minn)`; raises `ZeroDivisionError` when
the bounds coincide. -/
def scale_val (minn maxx : ℚ) (x : ℚ) : Except PyError ℚ :=
  if maxx - minn = 0 then .error .ZeroDivisionError
  else .ok (20 * (x - minn) / (maxx - minn))

/-- Resize one node: `node['size'] = node['size'] + scale_val(node[attr])`. -/
def resize_node (minn maxx : ℚ) (attr : String) (n : NodeRecord) :
    Except PyError NodeRecord := do
  let v ← dict_get n.numAttrs attr
  let s ← scale_val minn maxx v
  return { n with size := n.size + s }

/-- `_callback_size_nodes`: on `"None"` reset every node to the default
size; otherwise fetch the scaling bounds and add the scaled value to
each node's current size.  Ends with the re-filter step. -/
def _callback_size_nodes (st : JaalState) (size_nodes_value : String) :
    Except PyError (JaalState × GraphData) := do
  if size_nodes_value == "None" then
    let nodes := st.data.nodes.map (fun n => { n with size := DEFAULT_NODE_SIZE })
    let st := { st with data := { st.data with nodes := nodes } }
    let (st, graph_data) := refilter_nodes st
    return (st, graph_data)
  else
    let bounds ← dict_get st.scaling_vars.node size_nodes_value
    let minn := bounds.min
    let maxx := bounds.max
    let nodes ← pyMapE (resize_node minn maxx size_nodes_value) st.data.nodes
    let st := { st with data := { st.data with nodes := nodes } }
    let (st, graph_data) := refilter_nodes st
    return (st, graph_data)

/-- Resize one edge: `edge['width'] = edge[attr]` (raw value, no
scaling). -/
def resize_edge (attr : String) (e : EdgeRecord) : Except PyError EdgeRecord := do
  let v ← dict_get e.numAttrs attr
  return { e with width := v }

/-- `_callback_size_edges`: on `"None"` reset every edge to the default
width; otherwise set each edge's width to the raw attribute value. -/
def _callback_size_edges (st : JaalState) (size_edges_value : String) :
    Except PyError (JaalState × GraphData) := do
  if size_edges_value == "None" then
    let edges := st.data.edges.map (fun e => { e with width := DEFAULT_EDGE_SIZE })
    let st := { st with data := { st.data with edges := edges } }
    let (st, graph_data) := refilter_edges st
    return (st, graph_data)
  else
    let edges ← pyMapE (resize_edge size_edges_value) st.data.edges
    let st := { st with data := { st.data with edges := edges } }
    let (st, graph_data) := refilter_edges st
    return (st, graph_data)

/-! ## Spec-side vocabulary -/

/-- The ids of the nodes of a record set. -/
def node_ids (g : GraphData) : List String := g.nodes.map (fun n => n.id)

/-- The ids of the edges of a record set. -/
def edge_ids (g : GraphData) : List String := g.edges.map (fun e => e.id)

/-- Case-insensitive substring containment, as the spec words it. -/
def containsCI (sub s : String) : Bool := strIn (lower sub) (lower s)

/-- The un-hiding condition actually implemented by the edge pass of
the search filter: matching edge label, and endpoint ids compared
against the node label, all lowered. -/
def edge_matches (search_text : String) (e : EdgeRecord) (n : NodeRecord) : Bool :=
  strIn search_text (lower e.label) &&
    (lower e.«from» == lower n.label || lower e.«to» == lower n.label)

/-- Claim C3 as stated: after the search filter a node is shown exactly
when its label contains the search text case-insensitively, or some
edge whose label contains the search text case-insensitively has it as
an endpoint (endpoints referenced by node id). -/
def c3_claimed_visibility (g : GraphData) (search_text : String) : Prop :=
  ∀ n ∈ (_callback_search_graph g search_text).nodes,
    n.hidden = false ↔
      (containsCI search_text n.label = true ∨
        ∃ e ∈ g.edges, containsCI search_text e.label = true ∧
          (e.«from» = n.id ∨ e.«to» = n.id))

/-- Numbered history lines for the queries `qs`, the first numbered
`i + 1`. -/
def history_lines (i : Nat) : List String → List String
  | [] => []
  | q :: qs => entry_line i q :: history_lines (i + 1) qs

/-- The history buffer holding exactly the queries `qs`, numbered from
1. -/
def history_of (qs : List String) : String := join_str (history_lines 0 qs)

/-- The windowed view the spec asks for: the last `min n qs.length`
history lines, in their original order and numbering. -/
def window_spec (qs : List String) (n : Nat) : String :=
  join_str ((history_lines 0 qs).drop (qs.length - n))

/-- The displayed graph of a color-callback outcome (empty on error). -/
def shown_graph_c (r : Except PyError (JaalState × GraphData × List (String × String))) :
    GraphData :=
  match r with
  | .ok p => p.2.1
  | .error _ => { nodes := [], edges := [] }

/-- The displayed graph of a size-callback outcome (empty on error). -/
def shown_graph_s (r : Except PyError (JaalState × GraphData)) : GraphData :=
  match r with
  | .ok p => p.2
  | .error _ => { nodes := [], edges := [] }

/-! ## Concrete instances used by witnesses and counterexamples -/

/-- A node with the given id and label, default styling, and the given
attribute tables. -/
def mkNode (i lab : String) (attrs : List (String × String))
    (numAttrs : List (String × ℚ)) : NodeRecord :=
  { id := i, label := lab, color := DEFAULT_COLOR, size := DEFAULT_NODE_SIZE,
    hidden := false, attrs := attrs, numAttrs := numAttrs }

/-- An edge with the given id, endpoints and label, default styling. -/
def mkEdge (i f t lab : String) : EdgeRecord :=
  { id := i, «from» := f, «to» := t, label := lab, color := DEFAULT_COLOR,
    width := DEFAULT_EDGE_SIZE, attrs := [], numAttrs := [] }

/-- Empty scaling table. -/
def emptyScaling : ScalingVars := { node := [], edge := [] }

/-- A session state with the given full and filtered record sets,
scaling table, pending query, history and counter. -/
def mkState (d fd : GraphData) (sv : ScalingVars) (q hist : String) (cnt : Nat) : JaalState :=
  { data := d, filtered_data := fd, scaling_vars := sv, sparql_query := q,
    sparql_query_history := hist, counter_query_history := cnt }

/-- Two plain nodes and the record sets used by the query-filter
instances: `gFull` is the full set (nodes A and B), `gOnlyA` a
previously filtered view holding only A. -/
def nodeA : NodeRecord := mkNode "A" "A" [] []

/-- Second plain node of the query-filter instances. -/
def nodeB : NodeRecord := mkNode "B" "B" [] []

/-- Full record set of the query-filter instances. -/
def gFull : GraphData := { nodes := [nodeA, nodeB], edges := [] }

/-- A filtered view holding only node A. -/
def gOnlyA : GraphData := { nodes := [nodeA], edges := [] }

/-- Session state whose full set is `gFull` and whose last good
filtered view is `gOnlyA`. -/
def stQuery : JaalState := mkState gFull gOnlyA emptyScaling "" "" 0

/-- A graph with one node whose label is upper-case, no edges. -/
def gC3a : GraphData := { nodes := [mkNode "n1" "ABC" [] []], edges := [] }

/-- A graph with a self-loop edge labelled `bar` on a node whose id
(`A`) differs from its label (`foo`). -/
def gC3b : GraphData :=
  { nodes := [mkNode "A" "foo" [] []], edges := [mkEdge "e1" "A" "A" "bar"] }

/-- State with one node whose numeric attribute `val` has coinciding
scaling bounds (min = max = 5). -/
def stDegenerate : JaalState :=
  mkState { nodes := [mkNode "A" "A" [] [("val", 5)]], edges := [] }
          { nodes := [mkNode "A" "A" [] [("val", 5)]], edges := [] }
          { node := [("val", { min := 5, max := 5 })], edge := [] } "" "" 0

/-- Two nodes at default size with numeric attribute `v` of 0 and 10. -/
def gSize : GraphData :=
  { nodes := [mkNode "A" "A" [] [("v", 0)], mkNode "B" "B" [] [("v", 10)]], edges := [] }

/-- Scaling table for `gSize`: bounds 0 and 10 for `v`. -/
def svSize : ScalingVars := { node := [("v", { min := 0, max := 10 })], edge := [] }

/-- Session state over `gSize`. -/
def stSize : JaalState := mkState gSize gSize svSize "" "" 0

/-- `gSize` after one size-by-`v` application: sizes 7 and 27. -/
def gSizeOnce : GraphData :=
  { nodes := [{ mkNode "A" "A" [] [("v", 0)] with size := 7 },
              { mkNode "B" "B" [] [("v", 10)] with size := 27 }], edges := [] }

/-- Session state after one size-by-`v` application. -/
def stSizeOnce : JaalState := mkState gSizeOnce gSizeOnce svSize "" "" 0

/-- `gSize` after two size-by-`v` applications: sizes 7 and 47. -/
def gSizeTwice : GraphData :=
  { nodes := [{ mkNode "A" "A" [] [("v", 0)] with size := 7 },
              { mkNode "B" "B" [] [("v", 10)] with size := 47 }], edges := [] }

/-- Session state after two size-by-`v` applications. -/
def stSizeTwice : JaalState := mkState gSizeTwice gSizeTwice svSize "" "" 0

/-- One node with numeric attribute `v` at the scaling minimum. -/
def stScaleMin : JaalState :=
  mkState { nodes := [mkNode "A" "A" [] [("v", 0)]], edges := [] }
          { nodes := [mkNode "A" "A" [] [("v", 0)]], edges := [] }
          svSize "" "" 0

/-- 21 nodes whose attribute `cat` takes 21 distinct values. -/
def gPalette : GraphData :=
  { nodes := (List.range 21).map (fun i =>
      mkNode (toString i) (toString i) [("cat", toString i)] []), edges := [] }

/-- Session state over `gPalette`. -/
def stPalette : JaalState := mkState gPalette gPalette emptyScaling "" "" 0

/-- Three nodes whose attribute `c` takes the values x, x, y (the
spec's color-mapping example). -/
def gColorSmall : GraphData :=
  { nodes := [mkNode "A" "A" [("c", "x")] [], mkNode "B" "B" [("c", "x")] [],
              mkNode "C" "C" [("c", "y")] []], edges := [] }

/-- Session state over `gColorSmall`. -/
def stColorSmall : JaalState := mkState gColorSmall gColorSmall emptyScaling "" "" 0

/-- Query texts whose first entry contains the windowing separator
`"2: "` of a window of size 2 over 3 entries. -/
def qsSpoof : List String := ["a 2: b", "x", "y"]

/-- Session state whose history holds the three `qsSpoof` queries. -/
def stSpoof : JaalState := mkState gFull gFull emptyScaling "" (history_of qsSpoof) 3

/-- Three benign query texts. -/
def qsBenign : List String := ["a", "b", "c"]

/-- Session state whose history holds the three `qsBenign` queries. -/
def stBenign : JaalState := mkState gFull gFull emptyScaling "" (history_of qsBenign) 3

/-! ## Helper lemmas: effectful maps -/

theorem pyMapE_forall₂ {α β : Type} (f : α → Except PyError β) :
    ∀ (l : List α) (l' : List β), pyMapE f l = .ok l' →
      List.Forall₂ (fun x y => f x = .ok y) l l' := by
  intro l
  induction l with
  | nil =>
    intro l' h
    obtain rfl : ([] : List β) = l' := by simpa [pyMapE] using h
    exact .nil
  | cons x xs ih =>
    intro l' h
    cases hf : f x with
    | error e => simp [pyMapE, hf, bind, Except.bind] at h
    | ok y =>
      cases hr : pyMapE f xs with
      | error e => simp [pyMapE, hf, hr, bind, Except.bind] at h
      | ok ys =>
        simp only [pyMapE, hf, hr, bind, Except.bind, pure, Except.pure, Except.ok.injEq] at h
        subst h
        exact .cons hf (ih ys hr)

theorem forall₂_mem_left {α β : Type} {R : α → β → Prop} :
    ∀ {l : List α} {l' : List β}, List.Forall₂ R l l' → ∀ x ∈ l, ∃ y ∈ l', R x y := by
  intro l l' h
  induction h with
  | nil => intro x hx; cases hx
  | cons hr _ ih =>
    intro x hx
    rcases List.mem_cons.mp hx with rfl | hx
    · exact ⟨_, List.mem_cons_self _ _, hr⟩
    · obtain ⟨y, hy, hxy⟩ := ih x hx
      exact ⟨y, List.mem_cons_of_mem _ hy, hxy⟩

theorem forall₂_map_eq {α β γ : Type} {R : α → β → Prop} (g : α → γ) (g' : β → γ)
    (hpres : ∀ x y, R x y → g' y = g x) :
    ∀ {l : List α} {l' : List β}, List.Forall₂ R l l' → l'.map g' = l.map g := by
  intro l l' h
  induction h with
  | nil => rfl
  | cons hr _ ih => simp only [List.map_cons, hpres _ _ hr, ih]

theorem pyMapE_ok_of_forall {α β : Type} (f : α → Except PyError β) :
    ∀ (l : List α), (∀ x ∈ l, ∃ y, f x = .ok y) → ∃ l', pyMapE f l = .ok l' := by
  intro l
  induction l with
  | nil => intro _; exact ⟨[], rfl⟩
  | cons x xs ih =>
    intro h
    obtain ⟨y, hy⟩ := h x (List.mem_cons_self _ _)
    obtain ⟨ys, hys⟩ := ih (fun z hz => h z (List.mem_cons_of_mem _ hz))
    exact ⟨y :: ys, by simp [pyMapE, hy, hys, bind, Except.bind, pure, Except.pure]⟩

/-! ## Helper lemmas: distinct values and palette zipping -/

theorem mem_uniqueFirst_aux :
    ∀ (l acc : List String) (v : String),
      v ∈ l.foldl (fun acc v => if acc.contains v then acc else acc ++ [v]) acc ↔
        v ∈ acc ∨ v ∈ l := by
  intro l
  induction l with
  | nil => intro acc v; simp
  | cons x xs ih =>
    intro acc v
    simp only [List.foldl_cons]
    by_cases hx : acc.contains x
    · rw [if_pos hx, ih]
      have hxa : x ∈ acc := by simpa using hx
      constructor
      · rintro (h | h)
        · exact .inl h
        · exact .inr (List.mem_cons_of_mem _ h)
      · rintro (h | h)
        · exact .inl h
        · rcases List.mem_cons.mp h with rfl | h
          · exact .inl hxa
          · exact .inr h
    · rw [if_neg hx, ih]
      constructor
      · rintro (h | h)
        · rcases List.mem_append.mp h with h | h
          · exact .inl h
          · exact .inr (by simpa using List.mem_cons.mpr (.inl (by simpa using h)))
        · exact .inr (List.mem_cons_of_mem _ h)
      · rintro (h | h)
        · exact .inl (List.mem_append.mpr (.inl h))
        · rcases List.mem_cons.mp h with rfl | h
          · exact .inl (List.mem_append.mpr (.inr (by simp)))
          · exact .inr h

theorem mem_uniqueFirst (l : List String) (v : String) :
    v ∈ uniqueFirst l ↔ v ∈ l := by
  unfold uniqueFirst
  rw [mem_uniqueFirst_aux]
  simp

theorem zip_lookup_isSome :
    ∀ (l l' : List String) (x : String), x ∈ l → l.length ≤ l'.length →
      ((l.zip l').lookup x).isSome = true := by
  intro l
  induction l with
  | nil => intro l' x hx; cases hx
  | cons a as ih =>
    intro l' x hx hlen
    cases l' with
    | nil => simp at hlen
    | cons b bs =>
      simp only [List.zip_cons_cons, List.lookup]
      by_cases hab : x == a
      · simp [hab]
      · have hx' : x ∈ as := by
          rcases List.mem_cons.mp hx with rfl | h
          · simp at hab
          · exact h
        simp only [hab]
        exact ih bs x hx' (by simpa using hlen)

/-! ## Helper lemmas: the search filter in closed form -/

theorem foldl_if_map {α β : Type} (P : β → Bool) (f : β → α → α) :
    ∀ (es : List β) (ns : List α),
      es.foldl (fun ns e => if P e then ns.map (f e) else ns) ns =
        ns.map (fun n => es.foldl (fun n e => if P e then f e n else n) n) := by
  intro es
  induction es with
  | nil => intro ns; simp
  | cons e es ih =>
    intro ns
    simp only [List.foldl_cons]
    by_cases hp : P e
    · rw [if_pos hp, ih, List.map_map]
      apply List.map_congr_left
      intro n _
      simp [hp]
    · rw [if_neg hp, ih]
      apply List.map_congr_left
      intro n _
      simp [hp]

theorem unhide_fold (s : String) :
    ∀ (es : List EdgeRecord) (n : NodeRecord),
      es.foldl (fun n e => if strIn s (lower e.label) then unhide_for_edge e n else n) n =
        { n with hidden := n.hidden && !(es.any (fun e => edge_matches s e n)) } := by
  intro es
  induction es with
  | nil => intro n; simp
  | cons e es ih =>
    intro n
    simp only [List.foldl_cons, List.any_cons]
    by_cases hl : strIn s (lower e.label)
    · rw [if_pos hl]
      by_cases hf : lower e.«from» == lower n.label
      · rw [show unhide_for_edge e n = { n with hidden := false } by
            unfold unhide_for_edge; rw [if_pos hf]]
        rw [ih]
        simp [edge_matches, hl, hf]
      · by_cases ht : lower e.«to» == lower n.label
        · rw [show unhide_for_edge e n = { n with hidden := false } by
              unfold unhide_for_edge; rw [if_neg hf, if_pos ht]]
          rw [ih]
          simp [edge_matches, hl, hf, ht]
        · rw [show unhide_for_edge e n = n by
              unfold unhide_for_edge; rw [if_neg hf, if_neg ht]]
          rw [ih]
          simp [edge_matches, hl, hf, ht]
    · rw [if_neg hl, ih]
      simp [edge_matches, hl]

theorem search_graph_eq (g : GraphData) (s : String) :
    _callback_search_graph g s =
      { g with nodes := g.nodes.map (fun n =>
          { n with hidden :=
              !(strIn s (lower n.label) ||
                g.edges.any (fun e => edge_matches s e n)) }) } := by
  unfold _callback_search_graph
  dsimp only
  rw [foldl_if_map (fun e => strIn s (lower e.label)) unhide_for_edge, List.map_map]
  congr 1
  apply List.map_congr_left
  intro n _
  rw [Function.comp_apply, unhide_fold]
  unfold search_node
  by_cases h : strIn s (lower n.label)
  · simp [h, edge_matches]
  · simp [h, edge_matches]

/-! ## Helper lemmas: membership in the query-result node selection -/

theorem query_inner_fold_mem (node : NodeRecord) :
    ∀ (flat : List SPARQLTerm) (acc : List NodeRecord) (x : NodeRecord),
      x ∈ flat.foldl (fun res t =>
        match t with
        | .entity n => if node.id == n then res ++ [node] else res
        | .prim _ => res) acc → x ∈ acc ∨ x = node := by
  intro flat
  induction flat with
  | nil => intro acc x h; exact .inl h
  | cons t ts ih =>
    intro acc x h
    rw [List.foldl_cons] at h
    cases t with
    | prim p => exact ih acc x h
    | entity n =>
      dsimp only at h
      by_cases hn : node.id == n
      · rw [if_pos hn] at h
        rcases ih _ x h with h | h
        · rcases List.mem_append.mp h with h | h
          · exact .inl h
          · exact .inr (by simpa using h)
        · exact .inr h
      · rw [if_neg hn] at h
        exact ih acc x h

theorem query_outer_fold_mem (flat : List SPARQLTerm) :
    ∀ (nodes acc : List NodeRecord) (x : NodeRecord),
      x ∈ nodes.foldl (fun res node =>
        flat.foldl (fun res t =>
          match t with
          | .entity n => if node.id == n then res ++ [node] else res
          | .prim _ => res) res) acc →
      x ∈ acc ∨ x ∈ nodes := by
  intro nodes
  induction nodes with
  | nil => intro acc x h; exact .inl h
  | cons nd nds ih =>
    intro acc x h
    rw [List.foldl_cons] at h
    rcases ih _ x h with h | h
    · rcases query_inner_fold_mem nd flat acc x h with h | rfl
      · exact .inl h
      · exact .inr (List.mem_cons_self _ _)
    · exact .inr (List.mem_cons_of_mem _ h)

theorem query_res_nodes_mem (nodes : List NodeRecord) (flat : List SPARQLTerm) :
    ∀ x ∈ query_res_nodes nodes flat, x ∈ nodes := by
  intro x h
  rcases query_outer_fold_mem flat nodes [] x h with h | h
  · cases h
  · exact h

/-! ## Helper lemmas: dictionary access -/

theorem dict_get_ok {β : Type} {l : List (String × β)} {k : String} {v : β}
    (h : l.lookup k = some v) : dict_get l k = .ok v := by
  unfold dict_get
  rw [h]

theorem dict_get_of_isSome {β : Type} {l : List (String × β)} {k : String}
    (h : (l.lookup k).isSome = true) : ∃ v, dict_get l k = .ok v := by
  obtain ⟨v, hv⟩ := Option.isSome_iff_exists.mp h
  exact ⟨v, dict_get_ok hv⟩

/-! ## Claim C1 -/

/-- Claim C1, counterexample to the claim as stated: on an empty query
(the engine's `ParsingError`) the callback does not leave the displayed
graph unchanged; it replaces the previously filtered view `gOnlyA` by
the full data set. -/
theorem C1_counterexample :
    (_callback_filter_nodes stQuery gOnlyA (.error .ParsingError)).2.1 = stQuery.data ∧
    (_callback_filter_nodes stQuery gOnlyA (.error .ParsingError)).2.1 ≠ gOnlyA := by
  constructor <;> decide

/-- Claim C1 (amended): an empty or syntactically invalid query is
caught and converted into the fixed result message (`"No SPARQL query
entered"` for the empty-query `ParsingError`, `"Not a valid SPARQL
query."` for the `LexingError`), no exception propagates, the counter,
history and pending query are untouched, and the displayed graph and
the stored filtered view are reset to the full unfiltered data set
(not to the previous filtered view). -/
theorem C1_error_recovery (st : JaalState) (graph_data : GraphData) (e : QueryError) :
    (_callback_filter_nodes st graph_data (.error e)).2.2 =
      (match e with
       | .ParsingError => "No SPARQL query entered"
       | .LexingError => "Not a valid SPARQL query.") ∧
    (_callback_filter_nodes st graph_data (.error e)).2.1 = st.data ∧
    (_callback_filter_nodes st graph_data (.error e)).1 =
      { st with filtered_data := st.data } := by
  cases e <;> exact ⟨rfl, rfl, rfl⟩

/-! ## Claim C2 -/

/-- Claim C2 (confirmed): when at least one bound term of the flattened
query answer is a primitive value, the displayed graph is the full
unfiltered data set and the result text is the plain rendering of all
bound terms. -/
theorem C2_primitive_result (st : JaalState) (graph_data : GraphData)
    (res_list : List (List SPARQLTerm))
    (h : res_list.flatten.any term_is_prim = true) :
    (_callback_filter_nodes st graph_data (.ok res_list)).2.1 = st.data ∧
    (_callback_filter_nodes st graph_data (.ok res_list)).2.2 =
      result_text res_list.flatten := by
  unfold _callback_filter_nodes
  dsimp only
  rw [h]
  exact ⟨rfl, rfl⟩

/-- Witness for C2 at the spec's own example: the single binding row
`[[3]]` leaves the full graph displayed and renders `"3\n"`. -/
theorem C2_witness :
    ([[SPARQLTerm.prim "3"]] : List (List SPARQLTerm)).flatten.any term_is_prim = true ∧
    (_callback_filter_nodes stQuery gOnlyA (.ok [[.prim "3"]])).2.1 = stQuery.data ∧
    (_callback_filter_nodes stQuery gOnlyA (.ok [[.prim "3"]])).2.2 = "3\n" :=
  ⟨by decide,
   (C2_primitive_result stQuery gOnlyA [[.prim "3"]] (by decide)).1,
   by decide⟩

/-! ## Claim C3 -/

/-- Claim C3, counterexample to the claim as stated: (a) the node
labelled `ABC` contains the search text `ABC` case-insensitively yet is
hidden (the code does not lower the search text); (b) the edge labelled
`bar` matches the search text and has node `A` as both endpoints, yet
`A` stays hidden (the code compares endpoint ids against node labels,
not ids). -/
theorem C3_counterexample :
    ¬ c3_claimed_visibility gC3a "ABC" ∧ ¬ c3_claimed_visibility gC3b "bar" := by
  unfold c3_claimed_visibility
  constructor <;> decide

/-- Claim C3 (amended): the search filter leaves the edges unchanged
and changes only the `hidden` flag of each node; a node ends up shown
exactly when its lowered label contains the search text verbatim
(case-insensitive only for lower-case search text), or some edge whose
lowered label contains the search text verbatim has a lowered endpoint
id equal to the node's lowered label. -/
theorem C3_search_filter (g : GraphData) (search_text : String) :
    (_callback_search_graph g search_text).edges = g.edges ∧
    (_callback_search_graph g search_text).nodes = g.nodes.map (fun n =>
      { n with hidden :=
          !(strIn search_text (lower n.label) ||
            g.edges.any (fun e => edge_matches search_text e n)) }) := by
  rw [search_graph_eq]
  exact ⟨rfl, rfl⟩

/-! ## Claim C9 -/

/-- Claim C9 (confirmed): a successful evaluation appends exactly one
numbered `(counter, query)` line to the history and increments the
counter by one; a failed evaluation (empty or invalid query) leaves
counter and history unchanged; the explicit clear action resets the
counter to zero and the history to empty, together. -/
theorem C9_history_accounting (st : JaalState) (graph_data : GraphData)
    (res_list : List (List SPARQLTerm)) (e : QueryError) :
    ((_callback_filter_nodes st graph_data (.ok res_list)).1.counter_query_history =
        st.counter_query_history + 1 ∧
      (_callback_filter_nodes st graph_data (.ok res_list)).1.sparql_query_history =
        st.sparql_query_history ++ entry_line st.counter_query_history st.sparql_query) ∧
    ((_callback_filter_nodes st graph_data (.error e)).1.counter_query_history =
        st.counter_query_history ∧
      (_callback_filter_nodes st graph_data (.error e)).1.sparql_query_history =
        st.sparql_query_history) ∧
    ((clear_query_history st).counter_query_history = 0 ∧
      (clear_query_history st).sparql_query_history = "") := by
  refine ⟨⟨?_, ?_⟩, ?_, ⟨rfl, rfl⟩⟩
  · unfold _callback_filter_nodes
    dsimp only
    split <;> rfl
  · unfold _callback_filter_nodes
    dsimp only
    split <;> rfl
  · cases e <;> exact ⟨rfl, rfl⟩

/-! ## Claim C5 -/

/-- Claim C5 (code_bug): the scaling lambda of size-by-attribute has no
guard for coinciding bounds; with min = max = 5 recorded for `val`, the
first node triggers `20*(x-minn)/(maxx-minn)` with a zero denominator
and the callback raises `ZeroDivisionError` instead of treating the
degenerate case as a no-op. -/
theorem C5_min_eq_max_raises :
    _callback_size_nodes stDegenerate "val" = .error .ZeroDivisionError := by
  simp [_callback_size_nodes, stDegenerate, mkState, mkNode, dict_get, pyMapE, resize_node,
    scale_val, bind, Except.bind, pure, Except.pure, List.lookup]

/-! ## Claim C6 -/

/-- Claim C6 (code_bug): the styling operations are not all idempotent:
size-by-attribute adds the scaled offset to the node's *current* size
(`node['size'] = node['size'] + scale_val(...)`), so over bounds 0..10
one application takes the sizes to (7, 27) but a second application of
the same selector takes them to (7, 47) instead of leaving them
unchanged. -/
theorem C6_size_not_idempotent :
    _callback_size_nodes stSize "v" = .ok (stSizeOnce, gSizeOnce) ∧
    _callback_size_nodes stSizeOnce "v" = .ok (stSizeTwice, gSizeTwice) ∧
    gSizeOnce.nodes.map (fun n => n.size) = [7, 27] ∧
    gSizeTwice.nodes.map (fun n => n.size) = [7, 47] := by
  refine ⟨?_, ?_, by decide, by decide⟩ <;>
  · simp only [_callback_size_nodes, stSize, stSizeOnce, stSizeTwice, gSize, gSizeOnce,
      gSizeTwice, svSize, mkState, mkNode, dict_get, pyMapE, resize_node, scale_val,
      refilter_nodes, bind, Except.bind, pure, Except.pure, List.lookup,
      DEFAULT_NODE_SIZE, DEFAULT_COLOR, DEFAULT_EDGE_SIZE]
    norm_num
    try decide

/-! ## Claim C7 -/

/-- Claim C7 (confirmed): for a numeric attribute whose recorded bounds
satisfy min < max, size-by-attribute gives a node at the minimum the
offset 0 and a node at the maximum the offset 20, the offset being
added on top of the node's current size, which for a freshly parsed
node is the base default 7. -/
theorem C7_size_scaling (st : JaalState) (attr : String) (bounds : ScalingBounds) (v : ℚ)
    (n : NodeRecord)
    (hattr : attr ≠ "None")
    (hb : st.scaling_vars.node.lookup attr = some bounds)
    (hlt : bounds.min < bounds.max)
    (hall : ∀ m ∈ st.data.nodes, (m.numAttrs.lookup attr).isSome = true)
    (hn : n ∈ st.data.nodes)
    (hv : n.numAttrs.lookup attr = some v)
    (hsz : n.size = DEFAULT_NODE_SIZE) :
    ∃ p, _callback_size_nodes st attr = .ok p ∧
      ∃ n' ∈ p.1.data.nodes, n'.id = n.id ∧
        n'.size = DEFAULT_NODE_SIZE + 20 * (v - bounds.min) / (bounds.max - bounds.min) ∧
        (v = bounds.min → n'.size = DEFAULT_NODE_SIZE) ∧
        (v = bounds.max → n'.size = DEFAULT_NODE_SIZE + 20) := by
  have hd : bounds.max - bounds.min ≠ 0 := sub_ne_zero_of_ne (ne_of_gt hlt)
  have hbeq : (attr == "None") = false := beq_eq_false_iff_ne.mpr hattr
  have hok : ∀ m ∈ st.data.nodes, ∃ y, resize_node bounds.min bounds.max attr m = .ok y := by
    intro m hm
    obtain ⟨w, hw⟩ := dict_get_of_isSome (hall m hm)
    refine ⟨{ m with size := m.size + 20 * (w - bounds.min) / (bounds.max - bounds.min) }, ?_⟩
    simp [resize_node, hw, scale_val, hd, bind, Except.bind, pure, Except.pure]
  obtain ⟨ns, hns⟩ := pyMapE_ok_of_forall _ _ hok
  refine ⟨refilter_nodes { st with data := { st.data with nodes := ns } }, ?_, ?_⟩
  · unfold _callback_size_nodes
    rw [hbeq]
    simp only [Bool.false_eq_true, if_false, dict_get_ok hb, bind, Except.bind, hns]
    rfl
  · obtain ⟨y, hy, hyeq⟩ := forall₂_mem_left (pyMapE_forall₂ _ _ _ hns) n hn
    have hcomp : resize_node bounds.min bounds.max attr n =
        .ok { n with size := n.size + 20 * (v - bounds.min) / (bounds.max - bounds.min) } := by
      simp [resize_node, dict_get_ok hv, scale_val, hd, bind, Except.bind, pure, Except.pure]
    rw [hcomp] at hyeq
    obtain rfl := (Except.ok.injEq _ _).mp hyeq
    refine ⟨_, hy, rfl, by rw [hsz], ?_, ?_⟩
    · rintro rfl
      rw [hsz]
      simp
    · rintro rfl
      rw [hsz, mul_div_assoc, div_self hd, mul_one]

/-- Witness for C7: one node at the minimum of bounds 0..10, default
size 7, resized to exactly 7 (offset 0). -/
theorem C7_witness :
    ∃ p, _callback_size_nodes stScaleMin "v" = .ok p ∧
      ∃ n' ∈ p.1.data.nodes, n'.id = (mkNode "A" "A" [] [("v", (0:ℚ))]).id ∧
        n'.size = DEFAULT_NODE_SIZE + 20 * ((0:ℚ) - 0) / (10 - 0) ∧
        ((0:ℚ) = 0 → n'.size = DEFAULT_NODE_SIZE) ∧
        ((0:ℚ) = 10 → n'.size = DEFAULT_NODE_SIZE + 20) :=
  C7_size_scaling stScaleMin "v" { min := 0, max := 10 } 0 (mkNode "A" "A" [] [("v", 0)])
    (by decide) (by decide) (by norm_num) (by decide) (by decide) (by decide) (by decide)

/-! ## Claim C8 -/

/-- Claim C8, counterexample to the claim as stated: with 21 distinct
values of the attribute `cat`, the palette slice holds only 20 colors,
`zip` truncates the value-to-color mapping to 20 entries, and coloring
the node carrying the 21st distinct value raises `KeyError`, so the
entities are not all colored "without raising an error". -/
theorem C8_counterexample :
    _callback_color_nodes stPalette "cat" = .error .KeyError := by
  decide

/-- Claim C8 (amended): for an attribute with at most 20 distinct
values over the full entity set, color-by computes the distinct values,
assigns each the palette color at its position (order of first
appearance), and recolors every entity from this mapping without
raising; beyond 20 distinct values the mapping is truncated to the
first 20 and recoloring fails with a `KeyError` lookup failure rather
than producing collisions. -/
theorem C8_color_mapping (st : JaalState) (attr : String)
    (hattr : attr ≠ "None")
    (hall : ∀ m ∈ st.data.nodes, (m.attrs.lookup attr).isSome = true)
    (hcard : (uniqueFirst (node_attr_values st.data.nodes attr)).length ≤ 20) :
    ∃ p, _callback_color_nodes st attr = .ok p ∧
      p.2.2 = (uniqueFirst (node_attr_values st.data.nodes attr)).zip
        (KELLY_COLORS_HEX.take (uniqueFirst (node_attr_values st.data.nodes attr)).length) ∧
      ∀ n ∈ st.data.nodes, ∀ v, n.attrs.lookup attr = some v →
        ∃ n' ∈ p.1.data.nodes, n'.id = n.id ∧ p.2.2.lookup v = some n'.color := by
  have hbeq : (attr == "None") = false := beq_eq_false_iff_ne.mpr hattr
  have hK : KELLY_COLORS_HEX.length = 20 := rfl
  have hlen : (uniqueFirst (node_attr_values st.data.nodes attr)).length ≤
      (KELLY_COLORS_HEX.take (uniqueFirst (node_attr_values st.data.nodes attr)).length).length := by
    rw [List.length_take, hK]
    omega
  have hmem : ∀ m ∈ st.data.nodes, ∀ w, m.attrs.lookup attr = some w →
      w ∈ uniqueFirst (node_attr_values st.data.nodes attr) := by
    intro m hm w hw
    rw [mem_uniqueFirst]
    exact List.mem_filterMap.mpr ⟨m, hm, hw⟩
  have hok : ∀ m ∈ st.data.nodes, ∃ y,
      color_node ((uniqueFirst (node_attr_values st.data.nodes attr)).zip
        (KELLY_COLORS_HEX.take (uniqueFirst (node_attr_values st.data.nodes attr)).length))
        attr m = .ok y := by
    intro m hm
    obtain ⟨w, hw⟩ := Option.isSome_iff_exists.mp (hall m hm)
    obtain ⟨c, hc⟩ := Option.isSome_iff_exists.mp
      (zip_lookup_isSome _ _ w (hmem m hm w hw) hlen)
    exact ⟨{ m with color := c },
      by simp [color_node, dict_get_ok hw, dict_get_ok hc, bind, Except.bind, pure, Except.pure]⟩
  obtain ⟨ns, hns⟩ := pyMapE_ok_of_forall _ _ hok
  refine ⟨((refilter_nodes { st with data := { st.data with nodes := ns } }).1,
           (refilter_nodes { st with data := { st.data with nodes := ns } }).2,
           (uniqueFirst (node_attr_values st.data.nodes attr)).zip
             (KELLY_COLORS_HEX.take (uniqueFirst (node_attr_values st.data.nodes attr)).length)),
         ?_, rfl, ?_⟩
  · unfold _callback_color_nodes
    rw [hbeq]
    simp only [Bool.false_eq_true, if_false, get_distinct_colors, if_true, bind, Except.bind, hns]
    rfl
  · intro n hn v hv
    obtain ⟨y, hy, hyeq⟩ := forall₂_mem_left (pyMapE_forall₂ _ _ _ hns) n hn
    obtain ⟨c, hc⟩ := Option.isSome_iff_exists.mp
      (zip_lookup_isSome _ _ v (hmem n hn v hv) hlen)
    have hcomp : color_node ((uniqueFirst (node_attr_values st.data.nodes attr)).zip
        (KELLY_COLORS_HEX.take (uniqueFirst (node_attr_values st.data.nodes attr)).length))
        attr n = .ok { n with color := c } := by
      simp [color_node, dict_get_ok hv, dict_get_ok hc, bind, Except.bind, pure, Except.pure]
    rw [hcomp] at hyeq
    obtain rfl := (Except.ok.injEq _ _).mp hyeq
    exact ⟨_, hy, rfl, hc⟩

/-- Witness for C8 at the spec's example (values x, x, y over three
nodes): the callback succeeds, the mapping pairs the two distinct
values with the first two palette colors, and every node is colored
from it. -/
theorem C8_witness :
    ∃ p, _callback_color_nodes stColorSmall "c" = .ok p ∧
      p.2.2 = (uniqueFirst (node_attr_values stColorSmall.data.nodes "c")).zip
        (KELLY_COLORS_HEX.take (uniqueFirst (node_attr_values stColorSmall.data.nodes "c")).length) ∧
      ∀ n ∈ stColorSmall.data.nodes, ∀ v, n.attrs.lookup "c" = some v →
        ∃ n' ∈ p.1.data.nodes, n'.id = n.id ∧ p.2.2.lookup v = some n'.color :=
  C8_color_mapping stColorSmall "c" (by decide) (by decide) (by decide)

/-! ## Helper lemmas: id preservation and bind dissection for C10 -/

theorem forall₂_mem_right {α β : Type} {R : α → β → Prop} :
    ∀ {l : List α} {l' : List β}, List.Forall₂ R l l' → ∀ y ∈ l', ∃ x ∈ l, R x y := by
  intro l l' h
  induction h with
  | nil => intro y hy; cases hy
  | cons hr _ ih =>
    intro y hy
    rcases List.mem_cons.mp hy with rfl | hy
    · exact ⟨_, List.mem_cons_self _ _, hr⟩
    · obtain ⟨x, hx, hxy⟩ := ih y hy
      exact ⟨x, List.mem_cons_of_mem _ hx, hxy⟩

theorem bind_ok {α β : Type} {m : Except PyError α} {f : α → Except PyError β} {b : β}
    (h : (m >>= f) = .ok b) : ∃ a, m = .ok a ∧ f a = .ok b := by
  cases m with
  | error e => simp [bind, Except.bind] at h
  | ok a => exact ⟨a, rfl, by simpa [bind, Except.bind] using h⟩

theorem color_node_id {mapping : List (String × String)} {attr : String} {x y : NodeRecord}
    (h : color_node mapping attr x = .ok y) : y.id = x.id := by
  unfold color_node at h
  obtain ⟨v, hv, h⟩ := bind_ok h
  obtain ⟨c, hc, h⟩ := bind_ok h
  obtain rfl : ({ x with color := c } : NodeRecord) = y := by
    simpa [pure, Except.pure] using h
  rfl

theorem color_edge_id {mapping : List (String × String)} {attr : String} {x y : EdgeRecord}
    (h : color_edge mapping attr x = .ok y) : y.id = x.id := by
  unfold color_edge at h
  obtain ⟨v, hv, h⟩ := bind_ok h
  obtain ⟨c, hc, h⟩ := bind_ok h
  obtain rfl : ({ x with color := c } : EdgeRecord) = y := by
    simpa [pure, Except.pure] using h
  rfl

theorem resize_node_id {minn maxx : ℚ} {attr : String} {x y : NodeRecord}
    (h : resize_node minn maxx attr x = .ok y) : y.id = x.id := by
  unfold resize_node at h
  obtain ⟨v, hv, h⟩ := bind_ok h
  obtain ⟨s, hs, h⟩ := bind_ok h
  obtain rfl : ({ x with size := x.size + s } : NodeRecord) = y := by
    simpa [pure, Except.pure] using h
  rfl

theorem resize_edge_id {attr : String} {x y : EdgeRecord}
    (h : resize_edge attr x = .ok y) : y.id = x.id := by
  unfold resize_edge at h
  obtain ⟨v, hv, h⟩ := bind_ok h
  obtain rfl : ({ x with width := v } : EdgeRecord) = y := by
    simpa [pure, Except.pure] using h
  rfl

theorem shown_c_bind {α : Type} {m : Except PyError α}
    {f : α → Except PyError (JaalState × GraphData × List (String × String))}
    {P : GraphData → Prop}
    (hempty : P { nodes := [], edges := [] })
    (h : ∀ a, m = .ok a → P (shown_graph_c (f a))) :
    P (shown_graph_c (m >>= f)) := by
  cases m with
  | error e => simpa [bind, Except.bind, shown_graph_c] using hempty
  | ok a => simpa [bind, Except.bind] using h a rfl

theorem shown_s_bind {α : Type} {m : Except PyError α}
    {f : α → Except PyError (JaalState × GraphData)}
    {P : GraphData → Prop}
    (hempty : P { nodes := [], edges := [] })
    (h : ∀ a, m = .ok a → P (shown_graph_s (f a))) :
    P (shown_graph_s (m >>= f)) := by
  cases m with
  | error e => simpa [bind, Except.bind, shown_graph_s] using hempty
  | ok a => simpa [bind, Except.bind] using h a rfl

/-- The subset predicate of claim C10, relative to the full data set
`d`: every displayed node id and edge id occurs in `d`. -/
def ids_sub (d : GraphData) (g : GraphData) : Prop :=
  (∀ n ∈ g.nodes, n.id ∈ node_ids d) ∧ (∀ e ∈ g.edges, e.id ∈ edge_ids d)

theorem ids_sub_empty (d : GraphData) : ids_sub d { nodes := [], edges := [] } :=
  ⟨nofun, nofun⟩

theorem search_graph_ids_sub (st : JaalState) (g : GraphData) (s : String)
    (hg : ids_sub st.data g) :
    ids_sub st.data (_callback_search_graph g s) := by
  rw [search_graph_eq]
  constructor
  · intro n hn
    obtain ⟨m, hm, hfm⟩ := List.mem_map.mp hn
    rw [← hfm]
    exact hg.1 m hm
  · exact hg.2

theorem filter_nodes_ids_sub (st : JaalState) (g : GraphData)
    (r : Except QueryError (List (List SPARQLTerm))) :
    ids_sub st.data (_callback_filter_nodes st g r).2.1 := by
  unfold _callback_filter_nodes
  dsimp only
  cases r with
  | error e =>
    cases e <;>
      exact ⟨fun n hn => List.mem_map_of_mem _ hn, fun e he => List.mem_map_of_mem _ he⟩
  | ok res_list =>
    cases hp : res_list.flatten.any term_is_prim with
    | true =>
      simp only [hp, if_true]
      exact ⟨fun n hn => List.mem_map_of_mem _ hn, fun e he => List.mem_map_of_mem _ he⟩
    | false =>
      simp only [hp, Bool.false_eq_true, if_false]
      constructor
      · intro n hn
        exact List.mem_map_of_mem _ (query_res_nodes_mem _ _ n hn)
      · intro e he
        exact List.mem_map_of_mem _ he

theorem color_nodes_ids_sub (st : JaalState) (v : String)
    (hfe : ∀ e ∈ st.filtered_data.edges, e.id ∈ edge_ids st.data) :
    ids_sub st.data (shown_graph_c (_callback_color_nodes st v)) := by
  unfold _callback_color_nodes
  by_cases hv : (v == "None") = true
  · rw [if_pos hv]
    simp only [pure, Except.pure, shown_graph_c, refilter_nodes]
    constructor
    · intro n hn
      obtain ⟨m, hm, hfm⟩ := List.mem_map.mp (List.mem_of_mem_filter hn)
      rw [← hfm]
      exact List.mem_map.mpr ⟨m, hm, rfl⟩
    · exact hfe
  · rw [if_neg hv]
    refine shown_c_bind (ids_sub_empty _) ?_
    intro ns hns
    simp only [pure, Except.pure, shown_graph_c, refilter_nodes]
    constructor
    · intro n hn
      have hn' : n ∈ ns := List.mem_of_mem_filter hn
      obtain ⟨x, hx, hxy⟩ := forall₂_mem_right (pyMapE_forall₂ _ _ _ hns) n hn'
      rw [color_node_id hxy]
      exact List.mem_map_of_mem _ hx
    · exact hfe

theorem color_edges_ids_sub (st : JaalState) (v : String)
    (hfn : ∀ n ∈ st.filtered_data.nodes, n.id ∈ node_ids st.data) :
    ids_sub st.data (shown_graph_c (_callback_color_edges st v)) := by
  unfold _callback_color_edges
  by_cases hv : (v == "None") = true
  · rw [if_pos hv]
    simp only [pure, Except.pure, shown_graph_c, refilter_edges]
    constructor
    · exact hfn
    · intro e he
      obtain ⟨m, hm, hfm⟩ := List.mem_map.mp (List.mem_of_mem_filter he)
      rw [← hfm]
      exact List.mem_map.mpr ⟨m, hm, rfl⟩
  · rw [if_neg hv]
    refine shown_c_bind (ids_sub_empty _) ?_
    intro es hes
    simp only [pure, Except.pure, shown_graph_c, refilter_edges]
    constructor
    · exact hfn
    · intro e he
      have he' : e ∈ es := List.mem_of_mem_filter he
      obtain ⟨x, hx, hxy⟩ := forall₂_mem_right (pyMapE_forall₂ _ _ _ hes) e he'
      rw [color_edge_id hxy]
      exact List.mem_map_of_mem _ hx

theorem size_nodes_ids_sub (st : JaalState) (v : String)
    (hfe : ∀ e ∈ st.filtered_data.edges, e.id ∈ edge_ids st.data) :
    ids_sub st.data (shown_graph_s (_callback_size_nodes st v)) := by
  unfold _callback_size_nodes
  by_cases hv : (v == "None") = true
  · rw [if_pos hv]
    simp only [pure, Except.pure, shown_graph_s, refilter_nodes]
    constructor
    · intro n hn
      obtain ⟨m, hm, hfm⟩ := List.mem_map.mp (List.mem_of_mem_filter hn)
      rw [← hfm]
      exact List.mem_map.mpr ⟨m, hm, rfl⟩
    · exact hfe
  · rw [if_neg hv]
    refine shown_s_bind (ids_sub_empty _) ?_
    intro bounds hbounds
    refine shown_s_bind (ids_sub_empty _) ?_
    intro ns hns
    simp only [pure, Except.pure, shown_graph_s, refilter_nodes]
    constructor
    · intro n hn
      have hn' : n ∈ ns := List.mem_of_mem_filter hn
      obtain ⟨x, hx, hxy⟩ := forall₂_mem_right (pyMapE_forall₂ _ _ _ hns) n hn'
      rw [resize_node_id hxy]
      exact List.mem_map_of_mem _ hx
    · exact hfe

theorem size_edges_ids_sub (st : JaalState) (v : String)
    (hfn : ∀ n ∈ st.filtered_data.nodes, n.id ∈ node_ids st.data) :
    ids_sub st.data (shown_graph_s (_callback_size_edges st v)) := by
  unfold _callback_size_edges
  by_cases hv : (v == "None") = true
  · rw [if_pos hv]
    simp only [pure, Except.pure, shown_graph_s, refilter_edges]
    constructor
    · exact hfn
    · intro e he
      obtain ⟨m, hm, hfm⟩ := List.mem_map.mp (List.mem_of_mem_filter he)
      rw [← hfm]
      exact List.mem_map.mpr ⟨m, hm, rfl⟩
  · rw [if_neg hv]
    refine shown_s_bind (ids_sub_empty _) ?_
    intro es hes
    simp only [pure, Except.pure, shown_graph_s, refilter_edges]
    constructor
    · exact hfn
    · intro e he
      have he' : e ∈ es := List.mem_of_mem_filter he
      obtain ⟨x, hx, hxy⟩ := forall₂_mem_right (pyMapE_forall₂ _ _ _ hes) e he'
      rw [resize_edge_id hxy]
      exact List.mem_map_of_mem _ hx

/-! ## Claim C10 -/

/-- Claim C10 (confirmed): after each operation (search filter, query
filter, color-by and size-by for nodes and edges) the displayed view
references only node and edge ids present in the full unfiltered data
set, provided the incoming displayed view and the stored filtered view
already do (the full set itself trivially does); the filtered view is
never a superset of the full set. -/
theorem C10_filtered_subset (st : JaalState) (g : GraphData) (s : String)
    (r : Except QueryError (List (List SPARQLTerm))) (cn ce sn se : String)
    (hfn : ∀ n ∈ st.filtered_data.nodes, n.id ∈ node_ids st.data)
    (hfe : ∀ e ∈ st.filtered_data.edges, e.id ∈ edge_ids st.data)
    (hg : ids_sub st.data g) :
    ids_sub st.data (_callback_search_graph g s) ∧
    ids_sub st.data (_callback_filter_nodes st g r).2.1 ∧
    ids_sub st.data (shown_graph_c (_callback_color_nodes st cn)) ∧
    ids_sub st.data (shown_graph_c (_callback_color_edges st ce)) ∧
    ids_sub st.data (shown_graph_s (_callback_size_nodes st sn)) ∧
    ids_sub st.data (shown_graph_s (_callback_size_edges st se)) :=
  ⟨search_graph_ids_sub st g s hg,
   filter_nodes_ids_sub st g r,
   color_nodes_ids_sub st cn hfe,
   color_edges_ids_sub st ce hfn,
   size_nodes_ids_sub st sn hfe,
   size_edges_ids_sub st se hfn⟩

/-- Witness for C10 at a concrete session state whose filtered view
holds one of the two nodes. -/
theorem C10_witness :
    ids_sub stQuery.data (_callback_search_graph gOnlyA "a") ∧
    ids_sub stQuery.data (_callback_filter_nodes stQuery gOnlyA (.ok [])).2.1 ∧
    ids_sub stQuery.data (shown_graph_c (_callback_color_nodes stQuery "None")) ∧
    ids_sub stQuery.data (shown_graph_c (_callback_color_edges stQuery "None")) ∧
    ids_sub stQuery.data (shown_graph_s (_callback_size_nodes stQuery "None")) ∧
    ids_sub stQuery.data (shown_graph_s (_callback_size_edges stQuery "None")) :=
  C10_filtered_subset stQuery gOnlyA "a" (.ok []) "None" "None" "None" "None"
    (by decide) (by decide) (by constructor <;> decide)

/-! ## Helper lemmas: decimal renderings contain no newline -/

theorem digitChar_ne_newline (m : Nat) : Nat.digitChar m ≠ '\n' := by
  match m with
  | 0 | 1 | 2 | 3 | 4 | 5 | 6 | 7 | 8 | 9 | 10 | 11 | 12 | 13 | 14 | 15 => decide
  | (k + 16) =>
    unfold Nat.digitChar
    repeat' rw [if_neg (by omega)]
    decide

theorem toDigitsCore_ne_newline :
    ∀ (fuel n : Nat) (ds : List Char), (∀ c ∈ ds, c ≠ '\n') →
      ∀ c ∈ Nat.toDigitsCore 10 fuel n ds, c ≠ '\n' := by
  intro fuel
  induction fuel with
  | zero => intro n ds h; exact h
  | succ fuel ih =>
    intro n ds h
    unfold Nat.toDigitsCore
    dsimp only
    split
    · intro c hc
      rcases List.mem_cons.mp hc with rfl | hc
      · exact digitChar_ne_newline _
      · exact h c hc
    · refine ih _ _ ?_
      intro c hc
      rcases List.mem_cons.mp hc with rfl | hc
      · exact digitChar_ne_newline _
      · exact h c hc

theorem repr_ne_newline (n : Nat) : ∀ c ∈ (Nat.repr n).data, c ≠ '\n' :=
  toDigitsCore_ne_newline (n + 1) n [] (fun c hc => absurd hc (List.not_mem_nil c))

/-! ## Helper lemmas: strings as char lists -/

theorem str_data_append (a b : String) : (a ++ b).data = a.data ++ b.data := by
  cases a; cases b; rfl

theorem str_data_mk (l : List Char) : (String.mk l).data = l := rfl

theorem str_eq_of_data {a b : String} (h : a.data = b.data) : a = b := by
  cases a
  cases b
  exact congrArg String.mk h

/-! ## Helper lemmas: prefixes, substrings and the first-occurrence
split -/

theorem isPrefixB_append_self (s r : List Char) : isPrefixB s (s ++ r) = true := by
  induction s with
  | nil => rfl
  | cons a s ih => simp [isPrefixB, ih]

theorem containsSub_of_isPrefixB {s t : List Char} (h : isPrefixB s t = true) :
    containsSub s t = true := by
  cases t with
  | nil => simpa [containsSub] using h
  | cons c t => simp [containsSub, h]

theorem isPrefixB_of_append (y : List Char) :
    ∀ (x s : List Char), isPrefixB s (x ++ y) = true →
      isPrefixB s x = true ∨ isPrefixB x s = true := by
  intro x
  induction x with
  | nil => intro s _; exact .inr rfl
  | cons b x ih =>
    intro s h
    cases s with
    | nil => exact .inl rfl
    | cons a s =>
      rw [List.cons_append] at h
      simp only [isPrefixB, Bool.and_eq_true] at h ⊢
      obtain ⟨hab, h⟩ := h
      obtain rfl : a = b := eq_of_beq hab
      rcases ih s h with h' | h'
      · exact .inl ⟨by simp, h'⟩
      · exact .inr ⟨by simp, h'⟩

theorem mem_of_isPrefixB :
    ∀ (x s : List Char), isPrefixB x s = true → ∀ c ∈ x, c ∈ s := by
  intro x
  induction x with
  | nil => intro s _ c hc; cases hc
  | cons a x ih =>
    intro s h c hc
    cases s with
    | nil => exact absurd h (by simp [isPrefixB])
    | cons b t =>
      simp only [isPrefixB, Bool.and_eq_true] at h
      obtain ⟨hab, h⟩ := h
      rcases List.mem_cons.mp hc with rfl | hc
      · exact List.mem_cons.mpr (.inl (eq_of_beq hab))
      · exact List.mem_cons_of_mem _ (ih t h c hc)

theorem not_isPrefixB_append {s x : List Char} (y : List Char)
    (hnl : ∀ c ∈ s, c ≠ '\n')
    (hx : containsSub s x = false)
    (hend : ∃ z, x = z ++ ['\n']) :
    isPrefixB s (x ++ y) = false := by
  by_contra hcon
  rw [Bool.not_eq_false] at hcon
  rcases isPrefixB_of_append y x s hcon with h | h
  · exact absurd (containsSub_of_isPrefixB h) (by simp [hx])
  · obtain ⟨z, rfl⟩ := hend
    exact hnl '\n' (mem_of_isPrefixB _ _ h '\n' (List.mem_append.mpr (.inr (by simp)))) rfl

theorem containsSub_append_false {s : List Char} (hnl : ∀ c ∈ s, c ≠ '\n') :
    ∀ (x y : List Char), containsSub s x = false → containsSub s y = false →
      (x = [] ∨ ∃ z, x = z ++ ['\n']) → containsSub s (x ++ y) = false := by
  intro x
  induction x with
  | nil => intro y _ hy _; simpa using hy
  | cons c x ih =>
    intro y hx hy hend
    rcases hend with h | ⟨z, hz⟩
    · exact absurd h (by simp)
    · have h1 : isPrefixB s ((c :: x) ++ y) = false :=
        not_isPrefixB_append y hnl hx ⟨z, hz⟩
      have hx' : containsSub s x = false := by
        have h2 : (isPrefixB s (c :: x) || containsSub s x) = false := hx
        exact (Bool.or_eq_false_iff.mp h2).2
      have hend' : x = [] ∨ ∃ z', x = z' ++ ['\n'] := by
        cases z with
        | nil =>
          left
          simpa using congrArg List.tail hz
        | cons a z' =>
          right
          refine ⟨z', ?_⟩
          have hz' : c :: x = a :: (z' ++ ['\n']) := by simpa using hz
          simpa using congrArg List.tail hz'
      have h3 := ih y hx' hy hend'
      have heq : containsSub s ((c :: x) ++ y) =
          (isPrefixB s ((c :: x) ++ y) || containsSub s (x ++ y)) := rfl
      rw [heq, h1, h3]
      rfl

theorem partitionAux_self (s r : List Char) : partitionAux s (s ++ r) = some ([], r) := by
  have hpre := isPrefixB_append_self s r
  have hdrop : (s ++ r).drop s.length = r := List.drop_left s r
  cases hsr : s ++ r with
  | nil =>
    obtain ⟨hs, hr⟩ := List.append_eq_nil.mp hsr
    subst hs
    subst hr
    rfl
  | cons c t =>
    rw [hsr] at hpre hdrop
    simp only [partitionAux]
    rw [if_pos hpre, hdrop]

theorem partitionAux_append {s : List Char} (hnl : ∀ c ∈ s, c ≠ '\n') :
    ∀ (x y : List Char), containsSub s x = false →
      (x = [] ∨ ∃ z, x = z ++ ['\n']) →
      partitionAux s (x ++ y) =
        (match partitionAux s y with
         | some p => some (x ++ p.1, p.2)
         | none => none) := by
  intro x
  induction x with
  | nil =>
    intro y _ _
    rw [List.nil_append]
    cases partitionAux s y with
    | none => rfl
    | some p => rfl
  | cons c x ih =>
    intro y hx hend
    rcases hend with h | ⟨z, hz⟩
    · exact absurd h (by simp)
    · have h1 : isPrefixB s ((c :: x) ++ y) = false :=
        not_isPrefixB_append y hnl hx ⟨z, hz⟩
      have hx' : containsSub s x = false := by
        have h2 : (isPrefixB s (c :: x) || containsSub s x) = false := hx
        exact (Bool.or_eq_false_iff.mp h2).2
      have hend' : x = [] ∨ ∃ z', x = z' ++ ['\n'] := by
        cases z with
        | nil =>
          left
          simpa using congrArg List.tail hz
        | cons a z' =>
          right
          refine ⟨z', ?_⟩
          have hz' : c :: x = a :: (z' ++ ['\n']) := by simpa using hz
          simpa using congrArg List.tail hz'
      rw [List.cons_append]
      simp only [partitionAux]
      rw [show isPrefixB s (c :: (x ++ y)) = false from h1]
      simp only [Bool.false_eq_true, if_false]
      rw [ih y hx' hend']
      cases partitionAux s y with
      | none => rfl
      | some p => rfl

/-! ## Helper lemmas: history lines -/

theorem join_str_append : ∀ (a b : List String), join_str (a ++ b) = join_str a ++ join_str b := by
  intro a b
  induction a with
  | nil =>
    show join_str b = join_str [] ++ join_str b
    apply str_eq_of_data
    rw [str_data_append]
    rfl
  | cons s t ih =>
    show s ++ join_str (t ++ b) = (s ++ join_str t) ++ join_str b
    rw [ih, String.append_assoc]

theorem history_lines_append :
    ∀ (xs : List String) (i : Nat) (ys : List String),
      history_lines i (xs ++ ys) = history_lines i xs ++ history_lines (i + xs.length) ys := by
  intro xs
  induction xs with
  | nil => intro i ys; simp [history_lines]
  | cons q qs ih =>
    intro i ys
    rw [List.cons_append]
    show entry_line i q :: history_lines (i + 1) (qs ++ ys) = _
    rw [ih (i + 1) ys]
    have hidx : (i + 1) + qs.length = i + (q :: qs).length := by
      simp [List.length_cons]
      omega
    rw [hidx]
    rfl

theorem history_lines_length : ∀ (qs : List String) (i : Nat),
    (history_lines i qs).length = qs.length := by
  intro qs
  induction qs with
  | nil => intro i; rfl
  | cons q qs ih => intro i; simp [history_lines, ih]

theorem history_lines_mem : ∀ (L : List String) (i : Nat) (E : String),
    E ∈ history_lines i L → ∃ j r, E = entry_line j r := by
  intro L
  induction L with
  | nil => intro i E h; cases h
  | cons q L ih =>
    intro i E h
    rcases List.mem_cons.mp h with rfl | h
    · exact ⟨i, q, rfl⟩
    · exact ih (i + 1) E h

theorem entry_line_split (i : Nat) (q : String) :
    entry_line i q = (Nat.repr (i + 1) ++ ": ") ++ (q ++ "\n") := by
  unfold entry_line
  rw [String.append_assoc]
  rfl

theorem entry_line_newline (i : Nat) (q : String) :
    ∃ z, (entry_line i q).data = z ++ ['\n'] := by
  refine ⟨(toString (i + 1) ++ ": " ++ q).data, ?_⟩
  unfold entry_line
  rw [str_data_append]

theorem join_entries_good {s : List Char} (hnl : ∀ c ∈ s, c ≠ '\n') (hs : s ≠ []) :
    ∀ (L : List String),
      (∀ E ∈ L, containsSub s E.data = false) →
      (∀ E ∈ L, ∃ z, E.data = z ++ ['\n']) →
      containsSub s (join_str L).data = false ∧
        ((join_str L).data = [] ∨ ∃ z, (join_str L).data = z ++ ['\n']) := by
  intro L
  induction L with
  | nil =>
    intro _ _
    constructor
    · cases s with
      | nil => exact absurd rfl hs
      | cons a s' => rfl
    · exact .inl rfl
  | cons E L ih =>
    intro hcnt hend
    obtain ⟨ihc, ihe⟩ := ih (fun F hF => hcnt F (List.mem_cons_of_mem _ hF))
      (fun F hF => hend F (List.mem_cons_of_mem _ hF))
    have hEc := hcnt E (List.mem_cons_self _ _)
    have hEe := hend E (List.mem_cons_self _ _)
    have hdata : (join_str (E :: L)).data = E.data ++ (join_str L).data := by
      show (E ++ join_str L).data = _
      exact str_data_append _ _
    constructor
    · rw [hdata]
      exact containsSub_append_false hnl _ _ hEc ihc (.inr hEe)
    · rw [hdata]
      rcases ihe with h0 | ⟨z, hzz⟩
      · rw [h0, List.append_nil]
        exact .inr hEe
      · right
        refine ⟨E.data ++ z, ?_⟩
        rw [hzz, ← List.append_assoc]

/-! ## Claim C4 -/

/-- Claim C4, counterexample to the claim as stated: with history
entries `1: a 2: b`, `2: x`, `3: y` and window size 2, the windowing
partitions the buffer at the *first* occurrence of `"2: "`, which lies
inside the text of entry 1, so the result `"2: b\n2: x\n3: y\n"` is not
the last two entries. -/
theorem C4_counterexample :
    _callback_sparql_query_history stSpoof 2 ≠ window_spec qsSpoof 2 ∧
    _callback_sparql_query_history stSpoof 2 = "2: b\n2: x\n3: y\n" ∧
    window_spec qsSpoof 2 = "2: x\n3: y\n" := by
  refine ⟨?_, ?_, ?_⟩ <;> decide

/-- Claim C4 (amended): with the counter equal to the number T of
stored entries and a requested window size N ≥ 1, the windowing returns
the whole buffer when T ≤ N; when N < T it returns the suffix of the
buffer starting at the first occurrence of the separator `"(T-N+1): "`,
which is exactly the last N entries, in original order and numbering,
provided no earlier entry contains that separator text; the buffer
itself is not modified (the operation computes only a view). -/
theorem C4_history_window (qs : List String) (n : Nat) (st : JaalState)
    (hc : st.counter_query_history = qs.length)
    (hh : st.sparql_query_history = history_of qs)
    (hn1 : 1 ≤ n) :
    (qs.length ≤ n → _callback_sparql_query_history st n = history_of qs) ∧
    (n < qs.length →
      (∀ E ∈ (history_lines 0 qs).take (qs.length - n),
          strIn (Nat.repr (qs.length - n + 1) ++ ": ") E = false) →
      _callback_sparql_query_history st n = window_spec qs n) := by
  constructor
  · intro hle
    unfold _callback_sparql_query_history
    dsimp only
    rw [hc, hh]
    rw [if_neg (by omega)]
  · intro hlt hno
    unfold _callback_sparql_query_history
    dsimp only
    rw [hc, hh]
    rw [if_pos (by omega : qs.length > n)]
    have hsepeq : toString ((qs.length : Int) - ((n : Int) - 1)) ++ ": " =
        Nat.repr (qs.length - n + 1) ++ ": " := by
      have h1 : ((qs.length : Int) - ((n : Int) - 1)) = ((qs.length - n + 1 : Nat) : Int) := by
        omega
      rw [h1]
      rfl
    rw [hsepeq]
    obtain ⟨q0, rest, hdrop⟩ : ∃ q0 rest, qs.drop (qs.length - n) = q0 :: rest := by
      cases hd : qs.drop (qs.length - n) with
      | nil =>
        have hcon := congrArg List.length hd
        rw [List.length_drop] at hcon
        exact absurd hcon (by simp; omega)
      | cons q0 rest => exact ⟨q0, rest, rfl⟩
    have hsplit : history_lines 0 qs =
        history_lines 0 (qs.take (qs.length - n)) ++
          history_lines (qs.length - n) (qs.drop (qs.length - n)) := by
      conv_lhs => rw [← List.take_append_drop (qs.length - n) qs]
      rw [history_lines_append]
      rw [show 0 + (qs.take (qs.length - n)).length = qs.length - n by
        rw [List.length_take]; omega]
    have hlenA : (history_lines 0 (qs.take (qs.length - n))).length = qs.length - n := by
      rw [history_lines_length, List.length_take]
      omega
    have hnoA : ∀ E ∈ history_lines 0 (qs.take (qs.length - n)),
        containsSub (Nat.repr (qs.length - n + 1) ++ ": ").data E.data = false := by
      intro E hE
      apply hno
      rw [hsplit, List.take_left' hlenA]
      exact hE
    have hsnl : ∀ c ∈ (Nat.repr (qs.length - n + 1) ++ ": ").data, c ≠ '\n' := by
      intro c hcmem
      rw [str_data_append] at hcmem
      rcases List.mem_append.mp hcmem with h | h
      · exact repr_ne_newline _ c h
      · have : c = ':' ∨ c = ' ' := by simpa using h
        rcases this with rfl | rfl <;> decide
    have hsne : (Nat.repr (qs.length - n + 1) ++ ": ").data ≠ [] := by
      rw [str_data_append]
      intro hcon
      have h2 := (List.append_eq_nil.mp hcon).2
      simpa using h2
    have hshape : ∀ E ∈ history_lines 0 (qs.take (qs.length - n)),
        ∃ z, E.data = z ++ ['\n'] := by
      intro E hE
      obtain ⟨j, r, rfl⟩ := history_lines_mem _ _ _ hE
      exact entry_line_newline j r
    obtain ⟨hAc, hAe⟩ := join_entries_good hsnl hsne _ hnoA hshape
    have hBdef : history_lines (qs.length - n) (qs.drop (qs.length - n)) =
        entry_line (qs.length - n) q0 :: history_lines (qs.length - n + 1) rest := by
      rw [hdrop]
      rfl
    have hhist : (history_of qs).data =
        (join_str (history_lines 0 (qs.take (qs.length - n)))).data ++
          ((Nat.repr (qs.length - n + 1) ++ ": ").data ++
            ((q0 ++ "\n") ++ join_str (history_lines (qs.length - n + 1) rest)).data) := by
      unfold history_of
      rw [hsplit, join_str_append, str_data_append]
      congr 1
      rw [hBdef]
      show (entry_line (qs.length - n) q0 ++
        join_str (history_lines (qs.length - n + 1) rest)).data = _
      rw [entry_line_split]
      simp [str_data_append, List.append_assoc]
    have hpart : partitionAux (Nat.repr (qs.length - n + 1) ++ ": ").data
        (history_of qs).data =
        some ((join_str (history_lines 0 (qs.take (qs.length - n)))).data,
              ((q0 ++ "\n") ++ join_str (history_lines (qs.length - n + 1) rest)).data) := by
      rw [hhist]
      rw [partitionAux_append hsnl _ _ hAc hAe]
      rw [partitionAux_self]
      simp
    unfold str_partition
    rw [hpart]
    unfold window_spec
    rw [hsplit, List.drop_left' hlenA, hBdef]
    show (Nat.repr (qs.length - n + 1) ++ ": ") ++
        String.mk ((q0 ++ "\n") ++ join_str (history_lines (qs.length - n + 1) rest)).data =
      entry_line (qs.length - n) q0 ++ join_str (history_lines (qs.length - n + 1) rest)
    rw [entry_line_split]
    apply str_eq_of_data
    simp [str_data_append, str_data_mk, List.append_assoc]

/-- Witness for C4 with three benign entries and window size 2: the
windowing returns exactly the last two numbered lines. -/
theorem C4_witness :
    _callback_sparql_query_history stBenign 2 = window_spec qsBenign 2 ∧
    window_spec qsBenign 2 = "2: b\n3: c\n" := by
  refine ⟨(C4_history_window qsBenign 2 stBenign (by decide) (by decide) (by decide)).2
    (by decide) (by decide), by decide⟩

end SparqlQueryViz
